import Mathlib

/-!
Shallow embedding of the metadata-extraction core of
`src/src/app/api/papers/route.ts` (functions `extractBasicInfo`,
`extractTitle`, `extractAuthors`, `extractAbstract`, `extractDOI`,
`extractPublicationDate`, `extractJournal`).

Strings are modelled as `List Char`; string length is modelled as the
character count (the texts involved lie in the Basic Multilingual Plane,
where JavaScript's UTF-16 code-unit length coincides with it).
JavaScript regular expressions are compiled by hand into deterministic
scanners: for every pattern used by the source, each quantifier is
followed either by nothing or by a character class disjoint from the
quantified one, so greedy matching with backtracking is equivalent to
maximal-munch scanning; the one place where backtracking is observable
(`\s+([^,]+)` when the captured part would otherwise be empty) is
modelled explicitly in `phraseAt`.
-/

/-- JavaScript's whitespace class `\s` (also the set removed by
`String.prototype.trim`): tab, LF, VT, FF, CR, space, NBSP, and the
Unicode space separators, line/paragraph separators and BOM. -/
def isJsWs (c : Char) : Bool :=
  let n := c.toNat
  n = 0x20 || n = 0x9 || n = 0xa || n = 0xb || n = 0xc || n = 0xd ||
  n = 0xa0 || n = 0x1680 || (0x2000 ≤ n && n ≤ 0x200a) ||
  n = 0x2028 || n = 0x2029 || n = 0x202f || n = 0x205f || n = 0x3000 || n = 0xfeff

/-- JavaScript `String.prototype.trim`: strip `\s` characters from both ends. -/
def jsTrim (cs : List Char) : List Char :=
  ((cs.dropWhile isJsWs).reverse.dropWhile isJsWs).reverse

/-- The regex class `[A-Z]`. -/
def isUpperAZ (c : Char) : Bool :=
  65 ≤ c.toNat && c.toNat ≤ 90

/-- The regex class `[a-z]`. -/
def isLowerAZ (c : Char) : Bool :=
  97 ≤ c.toNat && c.toNat ≤ 122

/-- The regex class `\d`, i.e. `[0-9]`. -/
def isDigitC (c : Char) : Bool :=
  48 ≤ c.toNat && c.toNat ≤ 57

/-- ASCII lowering of one character, as used by case-insensitive (`/i`)
matching of the ASCII keywords appearing in the source's patterns. -/
def lowerChar (c : Char) : Char :=
  if isUpperAZ c then Char.ofNat (c.toNat + 32) else c

/-- `parseInt` on a non-empty string of decimal digits. -/
def natOfDigits (ds : List Char) : Nat :=
  ds.foldl (fun n c => n * 10 + (c.toNat - 48)) 0

/-- Case-insensitive literal-prefix test: does `cs` start with the
(lower-case) pattern `pat`? Models matching the literal `pat` under `/i`. -/
def startsWithCI (pat : List Char) (cs : List Char) : Bool :=
  (cs.take pat.length).map lowerChar == pat

/-- JavaScript `text.split('\n')`: cutting at every newline, so the result
always has one more element than the number of newlines; in particular
`''.split('\n')` is `['']`. -/
def splitNl : List Char → List (List Char)
  | [] => [[]]
  | c :: cs =>
    if c = '\n' then [] :: splitNl cs
    else
      match splitNl cs with
      | [] => [[c]]
      | l :: ls => (c :: l) :: ls

/-- The regex `^\d+\.`: a non-empty leading digit run followed by a period.
`\d+` is greedy and a digit can never satisfy the following `\.`, so the
maximal digit run is the only candidate. -/
def startsNumDot (cs : List Char) : Bool :=
  (cs.takeWhile isDigitC ≠ ([] : List Char)) &&
  ((cs.dropWhile isDigitC).head? == some '.')

/-- The regex `^(abstract|introduction|conclusion)/i` (the authors
extractor spells the alternatives capitalized, which `/i` makes identical). -/
def startsSection (cs : List Char) : Bool :=
  startsWithCI "abstract".toList cs ||
  startsWithCI "introduction".toList cs ||
  startsWithCI "conclusion".toList cs

/-- The conditions under which `extractTitle` returns a (trimmed) line:
length strictly between 10 and 200, not a numbered-list line, not a
section heading, not entirely `[A-Z\s]+`, and containing a space. -/
def titleOk (trimmed : List Char) : Bool :=
  decide (10 < trimmed.length) && decide (trimmed.length < 200) &&
  !startsNumDot trimmed &&
  !startsSection trimmed &&
  !(!trimmed.isEmpty && trimmed.all (fun c => isUpperAZ c || isJsWs c)) &&
  trimmed.contains ' '

/-- The `for`-loop of `extractTitle`: first line whose trimmed form
passes `titleOk` is returned; falling off the end returns `null`. -/
def extractTitleLoop : List (List Char) → Option (List Char)
  | [] => none
  | line :: rest =>
    let trimmed := jsTrim line
    if titleOk trimmed then some trimmed else extractTitleLoop rest

/-- `extractTitle`: scan the first 10 lines of the text. -/
def extractTitle (text : List Char) : Option (List Char) :=
  extractTitleLoop ((splitNl text).take 10)

/-- The regex `^[A-Z][a-z]+\s+[A-Z][a-z]+`: each quantified class is
disjoint from its successor, so greedy maximal runs are exact. -/
def authorLinePat (cs : List Char) : Bool :=
  match cs with
  | [] => false
  | c :: rest =>
    isUpperAZ c &&
    (rest.takeWhile isLowerAZ ≠ ([] : List Char)) &&
    (let r1 := rest.dropWhile isLowerAZ
     (r1.takeWhile isJsWs ≠ ([] : List Char)) &&
     (match r1.dropWhile isJsWs with
      | [] => false
      | d :: rest2 =>
        isUpperAZ d &&
        (match rest2 with
         | [] => false
         | e :: _ => isLowerAZ e)))

/-- The author-line test of `extractAuthors`: name-shaped start and not a
section heading. -/
def authorOk (trimmed : List Char) : Bool :=
  authorLinePat trimmed && !startsSection trimmed

/-- `extractAuthors`: scan the first 20 lines, push every trimmed
qualifying line, then `slice(0, 5)`. -/
def extractAuthors (text : List Char) : List (List Char) :=
  let lines := (splitNl text).take 20
  let authors :=
    lines.foldl
      (fun acc line =>
        let trimmed := jsTrim line
        if authorOk trimmed then acc ++ [trimmed] else acc)
      []
  authors.take 5

/-- Leftmost-match scan, the semantics of `text.match(re)` without the `g`
flag: try the single-position matcher `f` at every suffix in order and
return the first success. -/
def scanFirst {α : Type} (f : List Char → Option α) : List Char → Option α
  | [] => f []
  | c :: rest =>
    match f (c :: rest) with
    | some v => some v
    | none => scanFirst f rest

/-- The lookahead `(?=introduction|1\.|keywords|key\s*words)` of the
abstract regex, under `/i`. In `key\s*words` the `\s*` is followed by a
non-whitespace letter, so the maximal whitespace run is exact. -/
def abstractStop (cs : List Char) : Bool :=
  startsWithCI "introduction".toList cs ||
  (match cs with
   | '1' :: '.' :: _ => true
   | _ => false) ||
  startsWithCI "keywords".toList cs ||
  (startsWithCI "key".toList cs &&
   startsWithCI "words".toList ((cs.drop 3).dropWhile isJsWs))

/-- The prefix `abstract\s*:?\s*` of the abstract regex (under `/i`) at one
position: the label, a greedy whitespace run, an optional colon, another
greedy whitespace run. Every lookahead alternative starts with a
non-whitespace character, so backtracking into these runs never helps and
maximal munch is exact. Returns the remainder where the capture starts. -/
def abstractAfterLabel (cs : List Char) : Option (List Char) :=
  if startsWithCI "abstract".toList cs then
    let r1 := (cs.drop 8).dropWhile isJsWs
    match r1 with
    | ':' :: t => some (t.dropWhile isJsWs)
    | _ => some r1
  else none

/-- The lazy capture `(.*?)` (under `/s`, so any character) up to the first
position satisfying `abstractStop`; `none` when no such position exists. -/
def lazyCapture : List Char → Option (List Char)
  | [] => if abstractStop [] then some [] else none
  | c :: rest =>
    if abstractStop (c :: rest) then some []
    else (lazyCapture rest).map (fun t => c :: t)

/-- The capture group of
`text.match(/abstract\s*:?\s*(.*?)(?=introduction|1\.|keywords|key\s*words)/is)`:
leftmost position where label prefix and lazy capture both succeed. -/
def abstractCapture (text : List Char) : Option (List Char) :=
  scanFirst (fun cs => (abstractAfterLabel cs).bind lazyCapture) text

/-- `extractAbstract`: on a match, `match[1].trim().substring(0, 1000)`;
otherwise `null`. -/
def extractAbstract (text : List Char) : Option (List Char) :=
  (abstractCapture text).map (fun cap => (jsTrim cap).take 1000)

/-- The suffix `10\.\d+\/[^\s]+` of the DOI regex at one position: literal
`10.`, a non-empty greedy digit run, a slash, a non-empty greedy run of
non-whitespace. A digit cannot satisfy `\/`, so the maximal digit run is
exact. Returns the matched token. -/
def doiTokenAt (cs : List Char) : Option (List Char) :=
  match cs with
  | '1' :: '0' :: '.' :: rest =>
    let ds := rest.takeWhile isDigitC
    if ds.isEmpty then none
    else
      match rest.dropWhile isDigitC with
      | '/' :: r2 =>
        let tail := r2.takeWhile (fun c => !isJsWs c)
        if tail.isEmpty then none
        else some ('1' :: '0' :: '.' :: (ds ++ '/' :: tail))
      | _ => none
  | _ => none

/-- The full DOI regex `doi\s*:?\s*10\.\d+\/[^\s]+` (under `/i`) at one
position, already composed with the subsequent
`.replace(/doi\s*:?\s*/i, '')`: since the match starts with the label and
the label is delimited by the digit `1`, the replace removes exactly the
label prefix, so the bare token is returned directly. -/
def doiMatchAt (cs : List Char) : Option (List Char) :=
  if startsWithCI "doi".toList cs then
    let r1 := (cs.drop 3).dropWhile isJsWs
    match r1 with
    | ':' :: t => doiTokenAt (t.dropWhile isJsWs)
    | _ => doiTokenAt r1
  else none

/-- `extractDOI`: leftmost match of the DOI regex, label stripped. -/
def extractDOI (text : List Char) : Option (List Char) :=
  scanFirst doiMatchAt text

/-- `parseInt(x) || 1`: `parseInt` of a digit group is falsy exactly when
it is 0 (or `NaN` for an absent group, handled at the call sites). -/
def jsOrOne (n : Nat) : Nat :=
  if n = 0 then 1 else n

/-- The arguments the source passes to `new Date(year, month - 1, day)`,
kept as the 1-based calendar components; the `Date` constructor is the
identity on them for in-range values (its rollover for out-of-range
components is not modelled). -/
structure JsDateYMD where
  year : Nat
  month : Nat
  day : Nat
deriving DecidableEq

/-- Date pattern (a), `(\d{4})\s*年\s*(\d{1,2})\s*月`, at one position:
exactly four digits, then `年`, then a digit group of length 1 or 2, then
`月`, with optional whitespace between. A run of three or more digits can
never satisfy `(\d{1,2})\s*月` (after taking 2 or 1 digits the next
character is still a digit), so the match requires the maximal digit run
to have length 1 or 2. Returns (year, month) digit values. -/
def p1At (cs : List Char) : Option (Nat × Nat) :=
  match cs with
  | a :: b :: c :: d :: rest =>
    if isDigitC a && isDigitC b && isDigitC c && isDigitC d then
      match rest.dropWhile isJsWs with
      | '年' :: r2 =>
        let r3 := r2.dropWhile isJsWs
        let ms := r3.takeWhile isDigitC
        if (ms.length = 1 || ms.length = 2) &&
           (((r3.dropWhile isDigitC).dropWhile isJsWs).head? == some '月')
        then some (natOfDigits [a, b, c, d], natOfDigits ms)
        else none
      | _ => none
    else none
  | _ => none

/-- Date pattern (b), `(\d{4})[-\/](\d{1,2})[-\/](\d{1,2})`, at one
position. The middle group needs a separator after it, so its maximal
digit run must have length 1 or 2; the final group is last in the
pattern, so it greedily takes up to two digits of any non-empty run. -/
def p2At (cs : List Char) : Option (Nat × Nat × Nat) :=
  match cs with
  | a :: b :: c :: d :: s1 :: rest =>
    if isDigitC a && isDigitC b && isDigitC c && isDigitC d &&
       (s1 = '-' || s1 = '/') then
      let ms := rest.takeWhile isDigitC
      if ms.length = 1 || ms.length = 2 then
        match rest.dropWhile isDigitC with
        | s2 :: rest2 =>
          if s2 = '-' || s2 = '/' then
            let ds := (rest2.takeWhile isDigitC).take 2
            if ds.isEmpty then none
            else some (natOfDigits [a, b, c, d], natOfDigits ms, natOfDigits ds)
          else none
        | [] => none
      else none
    else none
  | _ => none

/-- Date pattern (c), `(\d{4})\s+(\d{1,2})\s+(\d{1,2})`, at one position:
like pattern (b) with non-empty whitespace runs as separators. -/
def p3At (cs : List Char) : Option (Nat × Nat × Nat) :=
  match cs with
  | a :: b :: c :: d :: rest =>
    if isDigitC a && isDigitC b && isDigitC c && isDigitC d then
      if (rest.takeWhile isJsWs).isEmpty then none
      else
        let r1 := rest.dropWhile isJsWs
        let ms := r1.takeWhile isDigitC
        if ms.length = 1 || ms.length = 2 then
          let r2 := r1.dropWhile isDigitC
          if (r2.takeWhile isJsWs).isEmpty then none
          else
            let r3 := r2.dropWhile isJsWs
            let ds := (r3.takeWhile isDigitC).take 2
            if ds.isEmpty then none
            else some (natOfDigits [a, b, c, d], natOfDigits ms, natOfDigits ds)
        else none
    else none
  | _ => none

/-- `extractPublicationDate`: the three patterns are tried in order over
the whole text; the first one with a match anywhere wins. Pattern (a) has
no third group, so `parseInt(match[3])` is `NaN` and the day defaults to
1; months and days parsed as 0 also default to 1 via `|| 1`. -/
def extractPublicationDate (text : List Char) : Option JsDateYMD :=
  match scanFirst p1At text with
  | some (y, m) => some ⟨y, jsOrOne m, 1⟩
  | none =>
    match scanFirst p2At text with
    | some (y, m, d) => some ⟨y, jsOrOne m, jsOrOne d⟩
    | none =>
      match scanFirst p3At text with
      | some (y, m, d) => some ⟨y, jsOrOne m, jsOrOne d⟩
      | none => none

/-- One journal phrase pattern `w1\s+w2\s+([^,]+)` (under `/i`) at one
position. The words are delimited by non-whitespace letters, so the
whitespace runs are maximal — except before the capture: when every
character from the end of the maximal run up to the next comma (or the
end) would leave `([^,]+)` empty, the engine backtracks one whitespace
character (itself in `[^,]`), capturing exactly it; with only one
whitespace character available the position fails. -/
def phraseAt (w1 w2 : List Char) (cs : List Char) : Option (List Char) :=
  if startsWithCI w1 cs then
    let r1 := cs.drop w1.length
    if (r1.takeWhile isJsWs).isEmpty then none
    else
      let r2 := r1.dropWhile isJsWs
      if startsWithCI w2 r2 then
        let r3 := r2.drop w2.length
        let ws := r3.takeWhile isJsWs
        if ws.isEmpty then none
        else
          let r4 := r3.dropWhile isJsWs
          let cap := r4.takeWhile (fun c => c != ',')
          if !cap.isEmpty then some cap
          else if 2 ≤ ws.length then (ws.getLast?).map (fun w => [w])
          else none
      else none
  else none

/-- `extractJournal`: try `published in`, `journal of`, `proceedings of`
in order; the first pattern with a match anywhere in the text wins, and
its capture is trimmed. -/
def extractJournal (text : List Char) : Option (List Char) :=
  match scanFirst (phraseAt "published".toList "in".toList) text with
  | some cap => some (jsTrim cap)
  | none =>
    match scanFirst (phraseAt "journal".toList "of".toList) text with
    | some cap => some (jsTrim cap)
    | none =>
      match scanFirst (phraseAt "proceedings".toList "of".toList) text with
      | some cap => some (jsTrim cap)
      | none => none

/-- The record returned by `extractBasicInfo`; optional fields absent in
the degraded return are `none`. -/
structure ExtractedMetadata where
  title : List Char
  authors : List (List Char)
  abstract : Option (List Char)
  doi : Option (List Char)
  publicationDate : Option JsDateYMD
  journal : Option (List Char)
deriving DecidableEq

/-- The sentinel title `'タイトル不明'` ("title unknown"). -/
def sentinelTitle : List Char := "タイトル不明".toList

/-- JavaScript `a || b` on a possibly-null string: null and the empty
string are falsy. -/
def jsOrStr (o : Option (List Char)) (dflt : List Char) : List Char :=
  match o with
  | none => dflt
  | some s => if s.isEmpty then dflt else s

/-- `extractBasicInfo`: the upstream `pdf(pdfBuffer)` call is modelled by
an `Except` input — `Except.ok text` is a successful text extraction and
`Except.error` an exception thrown by it, which the surrounding
`try`/`catch` converts into the minimal degraded record. On success the
six extractors run and the title falls back to the sentinel via `||`. -/
def extractBasicInfo (pdfResult : Except String (List Char)) : ExtractedMetadata :=
  match pdfResult with
  | Except.ok text =>
    { title := jsOrStr (extractTitle text) sentinelTitle
      authors := extractAuthors text
      abstract := extractAbstract text
      doi := extractDOI text
      publicationDate := extractPublicationDate text
      journal := extractJournal text }
  | Except.error _ =>
    { title := sentinelTitle
      authors := []
      abstract := none
      doi := none
      publicationDate := none
      journal := none }

/-! Helper lemmas (shared; not tied to a single claim). -/

/-- The split of any text is non-empty: the loop produces one line per
newline plus a final (possibly empty) line. -/
theorem splitNl_ne_nil (t : List Char) : splitNl t ≠ [] := by
  cases t with
  | nil => simp [splitNl]
  | cons c cs =>
    unfold splitNl
    split
    · simp
    · split
      · simp
      · simp

/-- Accumulating a filtered element with `acc ++ [x]` in a left fold is
filtering. -/
theorem foldl_pushIf_eq_filter (p : List Char → Bool) :
    ∀ (l : List (List Char)) (acc : List (List Char)),
      l.foldl (fun a x => if p x then a ++ [x] else a) acc = acc ++ l.filter p := by
  intro l
  induction l with
  | nil => intro acc; simp
  | cons x xs ih =>
    intro acc
    by_cases h : p x
    · simp [List.foldl_cons, h, ih]
    · simp [List.foldl_cons, h, ih]

/-- A successful leftmost scan succeeds at some position (a suffix). -/
theorem scanFirst_some {α : Type} (f : List Char → Option α) :
    ∀ (t : List Char) (v : α), scanFirst f t = some v → ∃ s, f s = some v := by
  intro t
  induction t with
  | nil => intro v h; exact ⟨[], h⟩
  | cons c rest ih =>
    intro v h
    unfold scanFirst at h
    cases hf : f (c :: rest) with
    | some w => rw [hf] at h; exact ⟨c :: rest, hf.trans h⟩
    | none => rw [hf] at h; exact ih v h

/-- A line returned by the title loop passed the full condition. -/
theorem extractTitleLoop_ok :
    ∀ (ls : List (List Char)) (s : List Char),
      extractTitleLoop ls = some s → titleOk s = true := by
  intro ls
  induction ls with
  | nil => intro s h; exact absurd h (by simp [extractTitleLoop])
  | cons line rest ih =>
    intro s h
    unfold extractTitleLoop at h
    by_cases hc : titleOk (jsTrim line)
    · simp only [hc, if_true] at h
      cases h
      exact hc
    · simp only [hc, if_false] at h
      exact ih s h

/-- A successful DOI-token match at a position has the bare-DOI shape:
`10.`, a non-empty digit run, `/`, a non-empty non-whitespace run. -/
theorem doiTokenAt_shape (r tok : List Char) (h : doiTokenAt r = some tok) :
    ∃ ds tail, tok = '1' :: '0' :: '.' :: (ds ++ '/' :: tail) ∧
      ds ≠ [] ∧ (∀ c ∈ ds, isDigitC c = true) ∧
      tail ≠ [] ∧ (∀ c ∈ tail, isJsWs c = false) := by
  unfold doiTokenAt at h
  split at h
  case _ rest =>
    simp only [] at h
    by_cases hds : (rest.takeWhile isDigitC).isEmpty = true
    · rw [if_pos hds] at h
      exact absurd h (by simp)
    · rw [if_neg hds] at h
      split at h
      case _ r2 heq =>
        by_cases htl : (r2.takeWhile (fun c => !isJsWs c)).isEmpty = true
        · rw [if_pos htl] at h
          exact absurd h (by simp)
        · rw [if_neg htl] at h
          cases h
          refine ⟨rest.takeWhile isDigitC, r2.takeWhile (fun c => !isJsWs c),
            rfl, ?_, ?_, ?_, ?_⟩
          · simpa [List.isEmpty_iff] using hds
          · intro c hc; exact List.mem_takeWhile_imp hc
          · simpa [List.isEmpty_iff] using htl
          · intro c hc
            simpa using List.mem_takeWhile_imp hc
      case _ => exact absurd h (by simp)
  case _ => exact absurd h (by simp)

/-- A successful DOI match at a position is a successful token match on
the remainder after the label. -/
theorem doiMatchAt_some (cs tok : List Char) (h : doiMatchAt cs = some tok) :
    ∃ r, doiTokenAt r = some tok := by
  unfold doiMatchAt at h
  split at h
  · simp only [] at h
    split at h
    case _ t heq => exact ⟨t.dropWhile isJsWs, h⟩
    case _ => exact ⟨(cs.drop 3).dropWhile isJsWs, h⟩
  · exact absurd h (by simp)

/-- Folding lines with trim-then-push under a test is filtering the
trimmed lines. -/
theorem foldl_trimPush (p : List Char → Bool) :
    ∀ (l : List (List Char)) (acc : List (List Char)),
      l.foldl (fun a line => if p (jsTrim line) then a ++ [jsTrim line] else a) acc
        = acc ++ (l.map jsTrim).filter p := by
  intro l
  induction l with
  | nil => intro acc; simp
  | cons x xs ih =>
    intro acc
    by_cases h : p (jsTrim x)
    · simp [h, ih]
    · simp [h, ih]

/-! Claim theorems. -/

/-- Claim C1: for every pipeline input, the assembled metadata's title is
non-null (here: a non-empty character list) and is either the sentinel or
a line selected by the title heuristic, regardless of what the other
extractors return. -/
theorem extractBasicInfo_title_total (r : Except String (List Char)) :
    (extractBasicInfo r).title ≠ [] ∧
    ((extractBasicInfo r).title = sentinelTitle ∨
      ∃ t, r = Except.ok t ∧ extractTitle t = some (extractBasicInfo r).title) := by
  cases r with
  | error e =>
    refine ⟨?_, Or.inl rfl⟩
    show sentinelTitle ≠ []
    decide
  | ok t =>
    have htitle : (extractBasicInfo (Except.ok t)).title
        = jsOrStr (extractTitle t) sentinelTitle := rfl
    rw [htitle]
    cases hx : extractTitle t with
    | none =>
      refine ⟨?_, Or.inl rfl⟩
      show sentinelTitle ≠ []
      decide
    | some s =>
      by_cases hs : s.isEmpty = true
      · constructor
        · show (if s.isEmpty = true then sentinelTitle else s) ≠ []
          rw [if_pos hs]
          decide
        · left
          show (if s.isEmpty = true then sentinelTitle else s) = sentinelTitle
          rw [if_pos hs]
      · constructor
        · show (if s.isEmpty = true then sentinelTitle else s) ≠ []
          rw [if_neg hs]
          simpa [List.isEmpty_iff] using hs
        · right
          refine ⟨t, rfl, ?_⟩
          rw [hx]
          have : (jsOrStr (some s) sentinelTitle) = s := by
            show (if s.isEmpty = true then sentinelTitle else s) = s
            rw [if_neg hs]
          rw [this]

/-- Claim C2: when the upstream PDF-to-text step fails (the `catch`
branch), the pipeline returns the minimal degraded record — sentinel
title, empty authors, all optional fields absent — instead of
propagating the failure. -/
theorem extractBasicInfo_upstream_failure_degraded (e : String) :
    extractBasicInfo (Except.error e) =
      { title := sentinelTitle, authors := [], abstract := none, doi := none,
        publicationDate := none, journal := none } := rfl

/-- Claim C3: the authors extractor returns the qualifying trimmed lines
among the first 20 lines, in encountered order, truncated to the first 5;
in particular its length is always at most 5, and with no qualifying line
it is the empty list. -/
theorem extractAuthors_capped (t : List Char) :
    (extractAuthors t).length ≤ 5 ∧
    extractAuthors t = ((((splitNl t).take 20).map jsTrim).filter authorOk).take 5 := by
  have hmain : extractAuthors t
      = ((((splitNl t).take 20).map jsTrim).filter authorOk).take 5 := by
    unfold extractAuthors
    simp only []
    rw [foldl_trimPush]
    simp
  refine ⟨?_, hmain⟩
  rw [hmain]
  simp [List.length_take]

/-- Claim C4: the publication-date extractor tries the three date
patterns in fixed priority order: whenever the first pattern
(`YYYY年MM月`) matches anywhere in the text, its match determines the
result, with the day defaulting to 1 (the pattern has no day group). -/
theorem extractPublicationDate_pattern_priority (t : List Char) (y m : Nat)
    (h : scanFirst p1At t = some (y, m)) :
    extractPublicationDate t = some ⟨y, jsOrOne m, 1⟩ := by
  unfold extractPublicationDate
  rw [h]

/-- Witness for claim C4: on a text containing both `2023年5月` and
`2023-06-07`, both patterns match, and the result comes from the first
pattern: year 2023, month 5, day 1. -/
theorem extractPublicationDate_pattern_priority_witness :
    scanFirst p1At "2023年5月 2023-06-07".toList = some (2023, 5) ∧
    scanFirst p2At "2023年5月 2023-06-07".toList = some (2023, 6, 7) ∧
    extractPublicationDate "2023年5月 2023-06-07".toList = some ⟨2023, 5, 1⟩ :=
  ⟨by decide, by decide,
    extractPublicationDate_pattern_priority "2023年5月 2023-06-07".toList 2023 5 (by decide)⟩

/-- Claim C5: the journal extractor tries its three phrase patterns in
fixed priority order: whenever `published in X` matches anywhere in the
text, its trimmed capture is the result. -/
theorem extractJournal_pattern_priority (t cap : List Char)
    (h : scanFirst (phraseAt "published".toList "in".toList) t = some cap) :
    extractJournal t = some (jsTrim cap) := by
  unfold extractJournal
  rw [h]

/-- Witness for claim C5: on a text containing both
`Journal of Computing, 2020` and `Published in XYZ Magazine`, both
patterns match, and the first pattern in priority order wins, yielding
`XYZ Magazine`. -/
theorem extractJournal_pattern_priority_witness :
    scanFirst (phraseAt "published".toList "in".toList)
        "Journal of Computing, 2020. Published in XYZ Magazine".toList
      = some "XYZ Magazine".toList ∧
    scanFirst (phraseAt "journal".toList "of".toList)
        "Journal of Computing, 2020. Published in XYZ Magazine".toList
      = some "Computing".toList ∧
    extractJournal "Journal of Computing, 2020. Published in XYZ Magazine".toList
      = some "XYZ Magazine".toList :=
  ⟨by decide, by decide,
    extractJournal_pattern_priority
      "Journal of Computing, 2020. Published in XYZ Magazine".toList
      "XYZ Magazine".toList (by decide)⟩

/-- Claim C6: every DOI the extractor returns is a bare DOI-shaped token
with the label stripped: it is literally `10.`, a non-empty digit run, a
slash, and a non-empty run of non-whitespace characters (so it never
starts with the `doi` label). -/
theorem extractDOI_bare_token (t tok : List Char) (h : extractDOI t = some tok) :
    ∃ ds tail, tok = '1' :: '0' :: '.' :: (ds ++ '/' :: tail) ∧
      ds ≠ [] ∧ (∀ c ∈ ds, isDigitC c = true) ∧
      tail ≠ [] ∧ (∀ c ∈ tail, isJsWs c = false) := by
  obtain ⟨s, hs⟩ := scanFirst_some doiMatchAt t tok h
  obtain ⟨r, hr⟩ := doiMatchAt_some s tok hs
  exact doiTokenAt_shape r tok hr

/-- Witness for claim C6: input containing `DOI: 10.1000/xyz123` yields
the bare token `10.1000/xyz123`, and a text with a `doi` label but no
DOI-shaped token yields an absent DOI. -/
theorem extractDOI_bare_token_witness :
    extractDOI "Title line\nDOI: 10.1000/xyz123\nmore".toList
      = some "10.1000/xyz123".toList ∧
    (∃ ds tail, "10.1000/xyz123".toList = '1' :: '0' :: '.' :: (ds ++ '/' :: tail) ∧
      ds ≠ [] ∧ (∀ c ∈ ds, isDigitC c = true) ∧
      tail ≠ [] ∧ (∀ c ∈ tail, isJsWs c = false)) ∧
    extractDOI "no doi token here".toList = none :=
  ⟨by decide,
    extractDOI_bare_token "Title line\nDOI: 10.1000/xyz123\nmore".toList
      "10.1000/xyz123".toList (by decide),
    by decide⟩

/-- Claim C7: a line consisting only of uppercase letters is never
selected as the title: any line the title extractor returns fails to be
a non-empty all-`[A-Z]` string (the `^[A-Z\s]+$` rejection rule). -/
theorem extractTitle_not_all_uppercase (t s : List Char)
    (h : extractTitle t = some s) :
    ¬ (s ≠ [] ∧ ∀ c ∈ s, isUpperAZ c = true) := by
  rintro ⟨hne, hall⟩
  have hok : titleOk s = true := extractTitleLoop_ok _ _ h
  unfold titleOk at hok
  simp only [Bool.and_eq_true] at hok
  obtain ⟨⟨⟨⟨⟨h1, h2⟩, h3⟩, h4⟩, h5⟩, h6⟩ := hok
  have hne2 : s.isEmpty = false := by
    cases s with
    | nil => exact absurd rfl hne
    | cons a l => rfl
  have hallf : s.all (fun c => isUpperAZ c || isJsWs c) = true := by
    rw [List.all_eq_true]
    intro c hc
    simp [hall c hc]
  rw [Bool.not_eq_true'] at h5
  rw [hne2, hallf] at h5
  simp at h5

/-- Witness for claim C7: a text whose first line is all-uppercase (and
within the length bounds) skips it; the returned title is the second
line, which is not an all-uppercase string. -/
theorem extractTitle_not_all_uppercase_witness :
    extractTitle "UPPERCASE HEADING LINE HERE\nA sensible mixed case title here".toList
      = some "A sensible mixed case title here".toList ∧
    ¬ ("A sensible mixed case title here".toList ≠ [] ∧
        ∀ c ∈ "A sensible mixed case title here".toList, isUpperAZ c = true) :=
  ⟨by decide,
    extractTitle_not_all_uppercase
      "UPPERCASE HEADING LINE HERE\nA sensible mixed case title here".toList
      "A sensible mixed case title here".toList (by decide)⟩

/-- Claim C8: when the abstract extractor finds a match, the result is
the trimmed capture truncated to 1000 characters — in particular of
length at most 1000 — and when the regex has no match the abstract is
absent. -/
theorem extractAbstract_trimmed_capped (t : List Char) :
    (∀ s, extractAbstract t = some s →
        s.length ≤ 1000 ∧
        ∃ raw, abstractCapture t = some raw ∧ s = (jsTrim raw).take 1000) ∧
    (abstractCapture t = none → extractAbstract t = none) := by
  constructor
  · intro s h
    unfold extractAbstract at h
    cases hc : abstractCapture t with
    | none =>
      rw [hc] at h
      exact absurd h (by simp)
    | some raw =>
      rw [hc] at h
      simp only [Option.map_some', Option.some.injEq] at h
      refine ⟨?_, raw, rfl, h.symm⟩
      rw [← h]
      simp [List.length_take]
  · intro h
    unfold extractAbstract
    rw [h]
    rfl

/-- Witness for claim C8: a matching text yields the trimmed capture, of
length at most 1000. -/
theorem extractAbstract_trimmed_capped_witness :
    extractAbstract "Abstract: We study things. Introduction follows".toList
      = some "We study things.".toList ∧
    ("We study things.".toList).length ≤ 1000 :=
  ⟨by decide,
    ((extractAbstract_trimmed_capped
        "Abstract: We study things. Introduction follows".toList).1
      "We study things.".toList (by decide)).1⟩

/-- Claim C9: on empty input text, extraction succeeds and returns the
fully degraded record: sentinel title, empty authors, and every optional
field absent. -/
theorem extractBasicInfo_empty_input :
    extractBasicInfo (Except.ok "".toList) =
      { title := sentinelTitle, authors := [], abstract := none, doi := none,
        publicationDate := none, journal := none } := by
  decide

/-- Counterexample for claim C10: on empty input the line split does not
produce an empty line sequence — it has one (empty) line, as
`''.split('\n')` is `['']`. -/
theorem splitNl_empty_counterexample :
    ¬ ((splitNl "".toList).length = 0) := by
  decide

/-- Claim C10 (amended): normalization always succeeds and always yields
at least one line; on empty input it yields exactly one empty line,
which the line-scanning extractors do not select (no title, no
authors). -/
theorem splitNl_total_singleton_on_empty (t : List Char) :
    splitNl t ≠ [] ∧ splitNl "".toList = [[]] ∧
    extractTitle "".toList = none ∧ extractAuthors "".toList = [] :=
  ⟨splitNl_ne_nil t, by decide, by decide, by decide⟩
